import Mathlib

/-!
Verification of the centraal-client-flow repository against its specification.

The development shallowly embeds the parts of the code base that the checked
properties talk about:

* the composite-id model of src/centraal_client_flow/models/schemas.py
  (IDModel with its model_serializer serialize_as_str and its before-mode
  model_validator parse_serialized_id);
* the diff algorithm RuleProcessor.detect_changes, the topic selection
  RuleSelector.get_topics_by_changes, the rule dispatch
  RuleSelector.select_rule and the queue handler process_function of
  src/centraal_client_flow/rules/update.py;
* IntegrationRule.run, IntegrationRule.register_log and the retry helper of
  src/centraal_client_flow/rules/integration/v2.py;
* the timer function of src/centraal_client_flow/events/timer.py.

Python strings are modelled as lists of characters.  Separators of composite
ids are modelled as single characters: the declared default of the source is
the single character "-" and every separator appearing in the repository
(including its tests) is a single character; the split performed by
str.split with a one-character separator is the function splitChar below.
-/

namespace CCF

/-! ## Decimal rendering and parsing of integers

Python renders an int field of an id with str() (sign followed by base-10
digits) and pydantic coerces a decimal string back to int when validating.
The functions below model that pair on canonical decimal strings: digits
with an optional leading minus sign, no whitespace and no underscores, which
covers every string produced by the rendering side. -/

/-- digitChar d is the decimal digit character for d below ten. -/
def digitChar : Nat → Char
  | 0 => '0' | 1 => '1' | 2 => '2' | 3 => '3' | 4 => '4'
  | 5 => '5' | 6 => '6' | 7 => '7' | 8 => '8' | _ => '9'

/-- isDigitCh c is true when c is one of the ten decimal digit characters. -/
def isDigitCh (c : Char) : Bool :=
  48 ≤ c.toNat && c.toNat ≤ 57

/-- pyNatStrAux renders the base-10 digits of n in big-endian order; the
fuel argument only forces structural termination and any fuel at least n
gives the full rendering. -/
def pyNatStrAux : Nat → Nat → List Char
  | _, 0 => []
  | 0, _ => []
  | fuel + 1, n => pyNatStrAux fuel (n / 10) ++ [digitChar (n % 10)]

/-- pyNatStr n is the base-10 rendering of a natural number, as Python str(). -/
def pyNatStr (n : Nat) : List Char :=
  if n = 0 then ['0'] else pyNatStrAux n n

/-- pyIntStr i is the base-10 rendering of an integer, as Python str(). -/
def pyIntStr (i : Int) : List Char :=
  if i < 0 then '-' :: pyNatStr i.natAbs else pyNatStr i.toNat

/-- digitsVal cs folds a big-endian digit string into its numeric value. -/
def digitsVal (cs : List Char) : Nat :=
  cs.foldl (fun acc c => acc * 10 + (c.toNat - 48)) 0

/-- parseDigits cs parses a nonempty all-digit string; otherwise it fails. -/
def parseDigits (cs : List Char) : Option Nat :=
  if cs ≠ [] ∧ cs.all isDigitCh then some (digitsVal cs) else none

/-- pyParseInt cs models the int coercion pydantic applies to a decimal
string: an optional leading minus sign followed by digits. -/
def pyParseInt (cs : List Char) : Option Int :=
  match cs with
  | [] => none
  | c :: rest =>
    if c = '-' then (parseDigits rest).map (fun n => -(n : Int))
    else (parseDigits cs).map (fun n => (n : Int))

/-! ## Splitting and joining with a one-character separator -/

/-- joinSep c parts mirrors the Python expression sep.join(parts) for the
one-character separator c (the join in IDModel.serialize_as_str). -/
def joinSep (c : Char) : List (List Char) → List Char
  | [] => []
  | [p] => p
  | p :: q :: ps => p ++ c :: joinSep c (q :: ps)

/-- splitChar c s mirrors the Python expression s.split(sep) for the
one-character separator c (the split in IDModel.parse_serialized_id). -/
def splitChar (c : Char) : List Char → List (List Char)
  | [] => [[]]
  | x :: xs =>
    if x = c then [] :: splitChar c xs
    else
      match splitChar c xs with
      | [] => [[x]]
      | p :: ps => (x :: p) :: ps

/-! ## The composite-id model (IDModel of models/schemas.py) -/

/-- FieldTy is the declared type of a user field of an IDModel subclass; the
subclasses appearing in the repository declare str and int fields. -/
inductive FieldTy
  | str
  | int
deriving DecidableEq

/-- FieldVal is a runtime value of an IDModel user field. -/
inductive FieldVal
  | vstr (s : List Char)
  | vint (n : Int)
deriving DecidableEq

/-- pyStrFV v is the Python str() rendering of a field value, as applied to
each field inside IDModel.serialize_as_str. -/
def pyStrFV : FieldVal → List Char
  | .vstr s => s
  | .vint n => pyIntStr n

/-- IDType describes an IDModel subclass: its declared non-separator fields
with their names and types in declaration order, and the declared default of
the separator field. -/
structure IDType where
  fields : List (String × FieldTy)
  sepDefault : Char

/-- IDInst is an instance of an IDModel subclass: the separator value of the
instance and the values of the non-separator fields in declaration order.
Pydantic equality of two instances of one class compares exactly these. -/
structure IDInst where
  sep : Char
  vals : List FieldVal
deriving DecidableEq

/-- serialize_as_str embeds IDModel.serialize_as_str: every non-separator
field is rendered with str() and the results are joined with the separator
value of the instance. -/
def serialize_as_str (inst : IDInst) : List Char :=
  joinSep inst.sep (inst.vals.map pyStrFV)

/-- coerceField embeds the pydantic coercion of one split part to the
declared type of its field: str fields keep the part, int fields parse it. -/
def coerceField (t : FieldTy) (cs : List Char) : Option FieldVal :=
  match t with
  | .str => some (.vstr cs)
  | .int => (pyParseInt cs).map .vint

/-- coerceFields coerces each split part to the declared type of the field
it was zipped with; any single failure fails the whole validation, as a
pydantic field error fails the model. -/
def coerceFields : List FieldTy → List (List Char) → Option (List FieldVal)
  | [], [] => some []
  | t :: ts, p :: ps =>
    match coerceField t p, coerceFields ts ps with
    | some v, some vs => some (v :: vs)
    | _, _ => none
  | _, _ => none

/-- parse_serialized_id embeds IDModel.parse_serialized_id followed by the
field validation: the string is split by the class default separator, the
part count must equal the number of declared non-separator fields, and each
part is coerced to its declared field type.  The resulting instance carries
the class default separator, since the built dict contains no separator key. -/
def parse_serialized_id (ty : IDType) (cs : List Char) : Option IDInst :=
  if (splitChar ty.sepDefault cs).length = ty.fields.length then
    (coerceFields (ty.fields.map Prod.snd) (splitChar ty.sepDefault cs)).map
      (fun vs => ⟨ty.sepDefault, vs⟩)
  else none

/-- valsTyped ts vs checks that a value list matches a declared type list
position by position. -/
def valsTyped : List FieldTy → List FieldVal → Bool
  | [], [] => true
  | .str :: ts, .vstr _ :: vs => valsTyped ts vs
  | .int :: ts, .vint _ :: vs => valsTyped ts vs
  | _, _ => false

/-! ## The diff engine (rules/update.py)

The unified record and its subschemas are modelled generically: a record is
a list of declared fields with their current values together with the list
of assigned field names (model_fields_set, in iteration order).  Leaf values
cover the scalar payloads appearing in the repository (strings, integers and
None); Python equality on these agrees with the structural equality of the
embedding.  A root-level value is either a leaf (not a pydantic model), a
composite id (a pydantic model that is an IDModel instance) or a nested
non-id pydantic model (a subschema); the isId flag records the outcome of
isinstance(value, IDModel). -/

/-- Leaf is a scalar Python value inside a record. -/
inductive Leaf
  | str (s : String)
  | int (n : Int)
  | none
deriving DecidableEq

/-- SubModel is a nested pydantic model: declared fields with their values,
plus the set of assigned field names. -/
structure SubModel where
  fields : List (String × Leaf)
  fieldsSet : List String
deriving DecidableEq

/-- Val is the value of a root-level field of the unified record. -/
inductive Val
  | leaf (l : Leaf)
  | model (isId : Bool) (m : SubModel)
deriving DecidableEq

/-- URec is a unified record (EntradaEsquemaUnificado instance): declared
root fields with their values, plus the set of assigned field names. -/
structure URec where
  fields : List (String × Val)
  fieldsSet : List String
deriving DecidableEq

/-- URec.get models getattr on a root field of a record. -/
def URec.get (r : URec) (name : String) : Val :=
  (r.fields.lookup name).getD (.leaf .none)

/-- SubModel.getD models getattr(x, name, None) on a nested model. -/
def SubModel.getD (m : SubModel) (name : String) : Leaf :=
  (m.fields.lookup name).getD .none

/-- valGetD models getattr(value, name, None) on an arbitrary value: only a
model has attributes, any other value yields the None default. -/
def valGetD (v : Val) (name : String) : Leaf :=
  match v with
  | .model _ m => m.getD name
  | .leaf _ => .none

/-- pyTruthy models the Python truthiness test applied to old_value in
detect_changes: None, zero and the empty string are falsy, a pydantic model
is truthy. -/
def pyTruthy : Val → Bool
  | .leaf .none => false
  | .leaf (.str s) => !(s == "")
  | .leaf (.int n) => !(n == 0)
  | .model _ _ => true

/-- AuditoriaEntry models the audit entry built by _log_changes inside
detect_changes; the id passed through is kept as an opaque token and the
fecha_evento timestamp (a default factory) is omitted. -/
structure AuditoriaEntry where
  id_entrada : String
  subesquema : String
  campo : String
  new_value : Val
  old_value : Val
deriving DecidableEq

/-- entriesNone gives the audit entries one field contributes in the branch
of detect_changes where current_data is None: a nested non-id model is
expanded per assigned subfield, anything else (a scalar or an IDModel) is
logged under the synthetic root subschema with old value None. -/
def entriesNone (idm : String) (updated : URec) (name : String) :
    List AuditoriaEntry :=
  match updated.get name with
  | .model false m =>
    m.fieldsSet.map fun sn =>
      ⟨idm, name, sn, .leaf (m.getD sn), .leaf .none⟩
  | nv => [⟨idm, "root", name, nv, .leaf .none⟩]

/-- entriesSome gives the audit entries one field contributes in the branch
of detect_changes where current_data exists: any pydantic model value (the
IDModel exclusion of the other branch is absent here) is expanded per
assigned subfield and a subfield is logged iff its old and new values
differ; a non-model value is logged under root iff the values differ. -/
def entriesSome (idm : String) (current updated : URec) (name : String) :
    List AuditoriaEntry :=
  let oldv := current.get name
  match updated.get name with
  | .model _ m =>
    m.fieldsSet.filterMap fun sn =>
      let so : Leaf := if pyTruthy oldv then valGetD oldv sn else .none
      let nn : Leaf := m.getD sn
      if so ≠ nn then some ⟨idm, name, sn, .leaf nn, .leaf so⟩ else Option.none
  | .leaf l =>
    if oldv ≠ .leaf l then [⟨idm, "root", name, .leaf l, oldv⟩] else []

/-- rawChanges is the list of entries detect_changes accumulates before the
empty-diff check, in the iteration order of the assigned field names. -/
def rawChanges (idm : String) (cur : Option URec) (upd : URec) :
    List AuditoriaEntry :=
  match cur with
  | .none => upd.fieldsSet.flatMap (entriesNone idm upd)
  | .some c => upd.fieldsSet.flatMap (entriesSome idm c upd)

/-- noChangesEntry is the sentinel entry detect_changes appends when no
change was recorded. -/
def noChangesEntry (idm : String) : AuditoriaEntry :=
  ⟨idm, "No Changes", "Ninguno", .leaf (.str "No cambios"),
    .leaf (.str "No cambios")⟩

/-- detect_changes embeds RuleProcessor.detect_changes. -/
def detect_changes (cur : Option URec) (upd : URec) (idm : String) :
    List AuditoriaEntry :=
  let changes := rawChanges idm cur upd
  if changes.isEmpty then [noChangesEntry idm] else changes

/-- topicStep is the body of the loop of get_topics_by_changes: one change
either inserts its subschema name into the accumulated set or leaves it
unchanged; the set insertion is modelled as an append guarded by
membership. -/
def topicStep (rule_topics : List String) (include_root : Bool)
    (acc : List String) (c : AuditoriaEntry) : List String :=
  if c.subesquema ∈ rule_topics then
    if include_root then
      if c.subesquema ∈ acc then acc else acc ++ [c.subesquema]
    else if c.subesquema ≠ "root" then
      if c.subesquema ∈ acc then acc else acc ++ [c.subesquema]
    else acc
  else acc

/-- get_topics_by_changes embeds RuleSelector.get_topics_by_changes: the
Python set accumulation is modelled as a fold that appends a subschema name
the first time it qualifies, so the result is the set of qualifying names
listed without duplicates. -/
def get_topics_by_changes (rule_topics : List String)
    (changes : List AuditoriaEntry) (include_root : Bool) : List String :=
  changes.foldl (topicStep rule_topics include_root) []

/-- ProcessEffects records the externally visible writes of one execution of
the queue handler process_function: the audit entries created, the unified
documents upserted and the topic messages sent (topic name paired with the
record published). -/
structure ProcessEffects where
  auditoria : List AuditoriaEntry
  unified : List URec
  topics : List (String × URec)
deriving DecidableEq

/-- isNoChangesSingleton is the guard of the early return of
process_function: len(changes) == 1 and changes[0].subesquema == the
sentinel tag. -/
def isNoChangesSingleton (cs : List AuditoriaEntry) : Bool :=
  cs.length == 1 && (cs.headD (noChangesEntry "")).subesquema == "No Changes"

/-- process_function embeds the body of the queue trigger registered by
RuleProcessor.register_function, from the point where the event was
validated, the rule selected, the current record fetched and the processor
applied: it diffs, and either only audits the sentinel, or upserts the
processed record, audits every change and publishes the record to the
topics selected from the changes (include_root is not passed and defaults
to false). -/
def process_function (rule_topics : List String) (cur : Option URec)
    (processed : URec) (idm : String) : ProcessEffects :=
  let changes := detect_changes cur processed idm
  if isNoChangesSingleton changes then
    ⟨changes, [], []⟩
  else
    ⟨changes, [processed],
      (get_topics_by_changes rule_topics changes false).map
        (fun t => (t, processed))⟩

/-! ## Rule selection (RuleSelector.select_rule)

A registered rule is modelled by its two components that matter to the
selector: the validation of its pydantic event model, a function that
returns the validated event or fails as ValidationError does, and its topic
set.  The raw input and validated event types are parameters. -/

/-- RuleR models a registered Rule as the selector sees it. -/
structure RuleR (α β : Type) where
  validate : α → Option β
  topics : List String

/-- select_rule embeds RuleSelector.select_rule: the registered rules are
tried in insertion order and the first successful validation returns the
validated event together with the rule; none models the NoHayReglas raise. -/
def select_rule {α β : Type} (rules : List (RuleR α β)) (data : α) :
    Option (β × RuleR α β) :=
  match rules with
  | [] => .none
  | r :: rs =>
    match r.validate data with
    | some v => some (v, r)
    | .none => select_rule rs data

/-- tyPedido is the id type of the repository test Clase3Atrs: three fields
(numero_pedido : str, fecha_pedido : str, add_info : int) with the inherited
default separator. -/
def tyPedido : IDType :=
  ⟨[("numero_pedido", .str), ("fecha_pedido", .str), ("add_info", .int)], '-'⟩

/-- instPedido is the instance built in the repository test
test_separator_inherited_correctly: the separator is overridden per instance
to a vertical bar while the class default stays the dash. -/
def instPedido : IDInst :=
  ⟨'|', [.vstr "ORD6789".toList, .vstr "2024-08-21".toList, .vint 10]⟩

/-- c2_witness_ty is the id type of the repository test Clase2Atrs:
(producto_id : str, lote : int) with the default dash separator. -/
def c2_witness_ty : IDType :=
  ⟨[("producto_id", .str), ("lote", .int)], '-'⟩

/-- c2_witness_inst renders to XYZ123-45, as in spec scenario S5. -/
def c2_witness_inst : IDInst :=
  ⟨'-', [.vstr "XYZ123".toList, .vint 45]⟩

/-- c10_witness_ty declares two str fields with the dash separator. -/
def c10_witness_ty : IDType :=
  ⟨[("cliente_id", .str), ("producto_id", .str)], '-'⟩

/-- c10_witness_inst puts the separator inside the first field value. -/
def c10_witness_inst : IDInst :=
  ⟨'-', [.vstr "x-y".toList, .vstr "z".toList]⟩

/-- scalarOrId is true for the values the specification groups together as
scalar or Composite-ID in the diff description: everything except a nested
non-id pydantic model. -/
def scalarOrId : Val → Bool
  | .leaf _ => true
  | .model true _ => true
  | .model false _ => false

/-- subOld gives the old subfield value detect_changes computes in its
expansion branch: getattr(old_value, sub_field_name, None) guarded by the
truthiness of old_value. -/
def subOld (cur : URec) (name sn : String) : Leaf :=
  if pyTruthy (cur.get name) then valGetD (cur.get name) sn else .none

/-- c1_id_a is a one-field composite id holding cliente_id A, as a record
value. -/
def c1_id_a : SubModel := ⟨[("cliente_id", .str "A")], ["cliente_id"]⟩

/-- c1_id_b is a one-field composite id holding cliente_id B, as a record
value. -/
def c1_id_b : SubModel := ⟨[("cliente_id", .str "B")], ["cliente_id"]⟩

/-- c1_cur is a current unified record whose id field holds cliente_id B. -/
def c1_cur : URec := ⟨[("id", .model true c1_id_b)], ["id"]⟩

/-- c1_upd is an updated unified record whose id field holds cliente_id A. -/
def c1_upd : URec := ⟨[("id", .model true c1_id_a)], ["id"]⟩

/-- c3_rec is a unified record with one assigned subschema field, used to
evaluate the no-change path on a concrete input (replaying it against
itself produces an empty diff). -/
def c3_rec : URec :=
  ⟨[("maestra", .model false ⟨[("info", .str "hello")], ["info"]⟩)],
    ["maestra"]⟩

/-! ## The integration rule (rules/integration/v2.py)

The user extension point integrate is abstracted by the sequence of outcomes
of its successive invocations (one per retry attempt): attempt n either
returns an IntegrationResult or raises, and a raised error is either a
pydantic ValidationError or any other exception.  Payload dictionaries are
modelled as association lists of JSON-like values.  The class
AuditoriaEntryIntegracion is imported by v2.py from models/schemas.py but
its definition is not part of the source tree, so it is modelled from the
spec (section 3, C3b). -/

/-- JVal is a JSON-like payload value of the integration dictionaries. -/
inductive JVal
  | str (s : String)
  | bool (b : Bool)
  | int (n : Int)
deriving DecidableEq

/-- JDict is a payload dictionary (response and bodysent). -/
abbrev JDict := List (String × JVal)

/-- IntegrationResult models the dataclass of v2.py. -/
structure IntegrationResult where
  success : Bool
  response : JDict
  bodysent : JDict
deriving DecidableEq

/-- Modelled from the spec: AuditoriaEntryIntegracion is referenced by
rules/integration/v2.py but not defined under src; spec section 3 (C3b)
gives the integration audit entry the shape id, regla, contenido (body
sent), success, response, fecha_evento.  The timestamp default is omitted
and the success field carries the name used at the call site in
register_log. -/
structure AuditoriaEntryIntegracion where
  id : String
  regla : String
  contenido : JDict
  sucess : Bool
  response : JDict
deriving DecidableEq

/-- PyErr distinguishes the exception classes run reacts to: pydantic
ValidationError against everything else. -/
inductive PyErr
  | validation (info : String)
  | other (info : String)
deriving DecidableEq

deriving instance DecidableEq for Except

/-- RetryTrace records one execution of the retry helper: its outcome (none
models the implicit None return when max_retries is zero), how many times
the wrapped function was called, and the seconds slept between attempts in
order. -/
structure RetryTrace (α E : Type) where
  result : Option (Except E α)
  calls : Nat
  sleeps : List Nat
deriving DecidableEq

/-- retryGo runs the loop of _retry_with_exponential_backoff from a given
attempt index with a given number of attempts remaining: a success returns
at once, a failure on a non-final attempt sleeps base_delay * 2 ^ attempt
and continues, and a failure on the final attempt re-raises. -/
def retryGo {α E : Type} (f : Nat → Except E α) (base : Nat) :
    Nat → Nat → RetryTrace α E
  | _, 0 => ⟨.none, 0, []⟩
  | attempt, 1 =>
    match f attempt with
    | .ok a => ⟨some (.ok a), 1, []⟩
    | .error e => ⟨some (.error e), 1, []⟩
  | attempt, k + 2 =>
    match f attempt with
    | .ok a => ⟨some (.ok a), 1, []⟩
    | .error _ =>
      let t := retryGo f base (attempt + 1) (k + 1)
      ⟨t.result, t.calls + 1, base * 2 ^ attempt :: t.sleeps⟩

/-- retry_with_exponential_backoff embeds the helper of v2.py; the source
defaults are max_retries = 3 and base_delay = 1. -/
def retry_with_exponential_backoff {α E : Type} (f : Nat → Except E α)
    (max_retries base_delay : Nat) : RetryTrace α E :=
  retryGo f base_delay 0 max_retries

/-- register_log embeds IntegrationRule.register_log: with an id present it
upserts exactly one integration audit entry built from the rule name and
the result; without one it raises. -/
def register_log (ruleName : String) (id_esquema : Option String)
    (result : IntegrationResult) : Except String AuditoriaEntryIntegracion :=
  match id_esquema with
  | some i => .ok ⟨i, ruleName, result.bodysent, result.success, result.response⟩
  | .none => .error "No es posible usar registro del log."

/-- RunOut records one execution of IntegrationRule.run: the returned result
or raised error, and the audit entries written. -/
structure RunOut where
  result : Except PyErr IntegrationResult
  auditWrites : List AuditoriaEntryIntegracion
deriving DecidableEq

/-- run embeds IntegrationRule.run.  The validated parameter is the outcome
of validating the decoded message against the unified model (ok carries the
id of the record); attempts abstracts the user integrate per retry attempt;
body_sent is the value of the body_sent attribute after integrate (none
models an integrate that set it to None).  A failed unified validation
raises; integrate runs through the retry helper with its defaults; a
ValidationError surviving the retries is captured into a failed
IntegrationResult that is audited and returned; any other surviving error
is re-raised; a successful result is audited and returned. -/
def run (ruleName : String) (validated : Except String String)
    (attempts : Nat → Except PyErr IntegrationResult)
    (body_sent : Option JDict) : RunOut :=
  match validated with
  | .error _ =>
    ⟨.error (.other "Error en validación del modelo unificado"), []⟩
  | .ok rid =>
    match (retry_with_exponential_backoff attempts 3 1).result with
    | some (.ok res) =>
      if body_sent = .none then
        ⟨.error (.other "No se ha definido el body_sent"), []⟩
      else
        match register_log ruleName (some rid) res with
        | .ok entry => ⟨.ok res, [entry]⟩
        | .error m => ⟨.error (.other m), []⟩
    | some (.error (.validation info)) =>
      let res : IntegrationResult :=
        ⟨false, [("error_validacion", .str info)],
          [("error_validacion", .bool true)]⟩
      match register_log ruleName (some rid) res with
      | .ok entry => ⟨.ok res, [entry]⟩
      | .error m => ⟨.error (.other m), []⟩
    | some (.error e) => ⟨.error e, []⟩
    | .none => ⟨.error (.other "sin intentos"), []⟩

/-- c5_rule_a accepts only even inputs and maps n to n + 1, like a pydantic
model that validates only part of the input space. -/
def c5_rule_a : RuleR Nat Nat :=
  ⟨fun n => if n % 2 == 0 then some (n + 1) else .none, ["a"]⟩

/-- c5_rule_b accepts every input, so it overlaps with c5_rule_a. -/
def c5_rule_b : RuleR Nat Nat :=
  ⟨fun n => some n, ["b"]⟩

/-- c6_res is a concrete successful IntegrationResult. -/
def c6_res : IntegrationResult :=
  ⟨true, [("status", .str "ok")], [("k", .str "v")]⟩

/-! ## The timer function (events/timer.py) -/

/-- timer_function embeds the loop of TimerFunctionBuilder.build_function:
every element of get_data is fed through process_event; a validated event is
dumped and sent to the queue with str(event.id) as session id, a
ValidationError is logged together with the element and the loop continues.
The first component of the output lists the queue sends in order (payload
paired with session id), the second lists the logged failures in order. -/
def timer_function {α Ev δ ε : Type} (process_event : α → Except ε Ev)
    (dump : Ev → δ) (idStr : Ev → String) :
    List α → List (δ × String) × List (α × ε)
  | [] => ([], [])
  | x :: xs =>
    let rest := timer_function process_event dump idStr xs
    match process_event x with
    | .ok v => ((dump v, idStr v) :: rest.1, rest.2)
    | .error e => (rest.1, (x, e) :: rest.2)

/-! ## Lemmas: decimal round trip -/

theorem digitChar_toNat {d : Nat} (h : d < 10) : (digitChar d).toNat = 48 + d := by
  interval_cases d <;> rfl

theorem isDigitCh_digitChar {d : Nat} (h : d < 10) : isDigitCh (digitChar d) = true := by
  interval_cases d <;> rfl

theorem digitChar_ne_dash {d : Nat} (h : d < 10) : digitChar d ≠ '-' := by
  interval_cases d <;> decide

theorem digitsVal_append (xs : List Char) (c : Char) :
    digitsVal (xs ++ [c]) = digitsVal xs * 10 + (c.toNat - 48) := by
  simp [digitsVal, List.foldl_append]

theorem pyNatStrAux_spec :
    ∀ (fuel n : Nat), n ≤ fuel →
      digitsVal (pyNatStrAux fuel n) = n ∧
        (pyNatStrAux fuel n).all isDigitCh = true := by
  intro fuel
  induction fuel with
  | zero =>
    intro n h
    interval_cases n
    exact ⟨rfl, rfl⟩
  | succ fuel ih =>
    intro n h
    match n with
    | 0 => exact ⟨rfl, rfl⟩
    | n + 1 =>
      have hdiv : (n + 1) / 10 ≤ fuel := by omega
      obtain ⟨ihv, ihd⟩ := ih _ hdiv
      constructor
      · show digitsVal
            (pyNatStrAux fuel ((n + 1) / 10) ++ [digitChar ((n + 1) % 10)]) = n + 1
        rw [digitsVal_append, ihv, digitChar_toNat (show (n + 1) % 10 < 10 by omega)]
        omega
      · show (pyNatStrAux fuel ((n + 1) / 10) ++
            [digitChar ((n + 1) % 10)]).all isDigitCh = true
        rw [List.all_append, ihd]
        simp [isDigitCh_digitChar (show (n + 1) % 10 < 10 by omega)]

theorem pyNatStr_ne_nil (n : Nat) : pyNatStr n ≠ [] := by
  unfold pyNatStr
  split
  · simp
  · next h =>
    rcases n with _ | m
    · exact absurd rfl h
    · show pyNatStrAux m ((m + 1) / 10) ++ [digitChar ((m + 1) % 10)] ≠ []
      simp

theorem pyNatStr_all_digits (n : Nat) : (pyNatStr n).all isDigitCh = true := by
  unfold pyNatStr
  split
  · rfl
  · exact (pyNatStrAux_spec n n le_rfl).2

theorem parseDigits_pyNatStr (n : Nat) : parseDigits (pyNatStr n) = some n := by
  unfold parseDigits
  rw [if_pos ⟨pyNatStr_ne_nil n, pyNatStr_all_digits n⟩]
  congr 1
  unfold pyNatStr
  split
  · next h => rw [h]; rfl
  · exact (pyNatStrAux_spec n n le_rfl).1

theorem pyNatStr_head_digit (n : Nat) :
    ∀ c rest, pyNatStr n = c :: rest → isDigitCh c = true := by
  intro c rest h
  have := pyNatStr_all_digits n
  rw [h] at this
  simp only [List.all_cons, Bool.and_eq_true] at this
  exact this.1

theorem pyParseInt_cons (c : Char) (rest : List Char) :
    pyParseInt (c :: rest) =
      if c = '-' then (parseDigits rest).map (fun n => -(n : Int))
      else (parseDigits (c :: rest)).map (fun n => (n : Int)) := rfl

theorem pyParseInt_pyNatStr (n : Nat) : pyParseInt (pyNatStr n) = some (n : Int) := by
  rcases hcs : pyNatStr n with _ | ⟨c, rest⟩
  · exact absurd hcs (pyNatStr_ne_nil n)
  · have hdig : isDigitCh c = true := pyNatStr_head_digit n c rest hcs
    have hne : c ≠ '-' := by
      intro h
      rw [h] at hdig
      simp [isDigitCh] at hdig
    rw [pyParseInt_cons, if_neg hne, ← hcs, parseDigits_pyNatStr]
    rfl

theorem pyParseInt_pyIntStr (i : Int) : pyParseInt (pyIntStr i) = some i := by
  unfold pyIntStr
  split
  · next h =>
    rw [pyParseInt_cons, if_pos rfl, parseDigits_pyNatStr]
    have hnn : -((i.natAbs : Nat) : Int) = i := by omega
    show some (-((i.natAbs : Nat) : Int)) = some i
    rw [hnn]
  · next h =>
    rw [pyParseInt_pyNatStr]
    have : ((i.toNat : Nat) : Int) = i := by omega
    rw [this]

/-! ## Lemmas: split and join with a one-character separator -/

theorem splitChar_cons (c x : Char) (xs : List Char) :
    splitChar c (x :: xs) =
      if x = c then [] :: splitChar c xs
      else
        match splitChar c xs with
        | [] => [[x]]
        | p :: ps => (x :: p) :: ps := rfl

theorem splitChar_ne_nil (c : Char) (s : List Char) : splitChar c s ≠ [] := by
  induction s with
  | nil => simp [splitChar]
  | cons x xs ih =>
    rw [splitChar_cons]
    split
    · simp
    · rcases h : splitChar c xs with _ | ⟨p, ps⟩
      · simp
      · simp

theorem splitChar_no_sep (c : Char) (p : List Char) (h : c ∉ p) :
    splitChar c p = [p] := by
  induction p with
  | nil => rfl
  | cons x xs ih =>
    have hx : x ≠ c := fun hc => h (by simp [hc])
    have hxs : c ∉ xs := fun hc => h (by simp [hc])
    rw [splitChar_cons, if_neg hx, ih hxs]

theorem splitChar_append_sep (c : Char) (p t : List Char) (h : c ∉ p) :
    splitChar c (p ++ c :: t) = p :: splitChar c t := by
  induction p with
  | nil =>
    show splitChar c (c :: t) = [] :: splitChar c t
    rw [splitChar_cons, if_pos rfl]
  | cons x xs ih =>
    have hx : x ≠ c := fun hc => h (by simp [hc])
    have hxs : c ∉ xs := fun hc => h (by simp [hc])
    show splitChar c (x :: (xs ++ c :: t)) = (x :: xs) :: splitChar c t
    rw [splitChar_cons, if_neg hx, ih hxs]

theorem splitChar_joinSep (c : Char) :
    ∀ (parts : List (List Char)), parts ≠ [] → (∀ p ∈ parts, c ∉ p) →
      splitChar c (joinSep c parts) = parts := by
  intro parts
  induction parts with
  | nil => intro h; exact absurd rfl h
  | cons p ps ih =>
    intro _ hall
    rcases ps with _ | ⟨q, qs⟩
    · show splitChar c (joinSep c [p]) = [p]
      exact splitChar_no_sep c p (hall p (by simp))
    · show splitChar c (p ++ c :: joinSep c (q :: qs)) = p :: (q :: qs)
      rw [splitChar_append_sep c p _ (hall p (by simp))]
      rw [ih (by simp) (fun r hr => hall r (by simp [hr]))]

theorem length_splitChar (c : Char) (s : List Char) :
    (splitChar c s).length = s.count c + 1 := by
  induction s with
  | nil => rfl
  | cons x xs ih =>
    unfold splitChar
    split
    · next hx =>
      simp only [List.length_cons, ih, List.count_cons]
      simp [hx]
    · next hx =>
      rcases h : splitChar c xs with _ | ⟨p, ps⟩
      · exact absurd h (splitChar_ne_nil c xs)
      · rw [h] at ih
        simp only [List.length_cons] at ih ⊢
        have hxc : (x == c) = false := by simp [hx]
        simp [List.count_cons, hxc, ih]

theorem count_joinSep (c : Char) :
    ∀ (ps : List (List Char)) (p : List Char),
      (joinSep c (p :: ps)).count c =
        p.count c + ps.length + (ps.map (fun q => q.count c)).sum := by
  intro ps
  induction ps with
  | nil => intro p; simp [joinSep]
  | cons q qs ih =>
    intro p
    show (p ++ c :: joinSep c (q :: qs)).count c = _
    rw [List.count_append, List.count_cons]
    rw [ih q]
    simp
    omega

/-! ## Lemmas: typed value lists -/

theorem valsTyped_length :
    ∀ (ts : List FieldTy) (vs : List FieldVal),
      valsTyped ts vs = true → vs.length = ts.length := by
  intro ts
  induction ts with
  | nil =>
    intro vs h
    cases vs with
    | nil => rfl
    | cons v vs => cases v <;> simp [valsTyped] at h
  | cons t ts ih =>
    intro vs h
    cases vs with
    | nil => cases t <;> simp [valsTyped] at h
    | cons v vs =>
      cases t <;> cases v
      · simp only [valsTyped] at h
        simp only [List.length_cons, ih vs h]
      · simp [valsTyped] at h
      · simp [valsTyped] at h
      · simp only [valsTyped] at h
        simp only [List.length_cons, ih vs h]

theorem coerceFields_pyStrFV :
    ∀ (ts : List FieldTy) (vs : List FieldVal), valsTyped ts vs = true →
      coerceFields ts (vs.map pyStrFV) = some vs := by
  intro ts
  induction ts with
  | nil =>
    intro vs h
    cases vs with
    | nil => rfl
    | cons v vs => cases v <;> simp [valsTyped] at h
  | cons t ts ih =>
    intro vs h
    cases vs with
    | nil => cases t <;> simp [valsTyped] at h
    | cons v vs =>
      cases t <;> cases v <;> simp only [valsTyped] at h
      · show coerceFields (.str :: ts) (pyStrFV (.vstr _) :: vs.map pyStrFV) = _
        simp only [coerceFields, coerceField, pyStrFV, ih vs h]
      · simp at h
      · simp at h
      · next n =>
        show coerceFields (.int :: ts) (pyStrFV (.vint n) :: vs.map pyStrFV) = _
        simp only [coerceFields, coerceField, pyStrFV, pyParseInt_pyIntStr,
          Option.map_some', ih vs h]

/-! ## Claims C2 and C10: the composite-id round trip -/

/-- C2 amended: parsing the rendered string of a well-formed composite id
reconstructs the id, provided the separator value of the instance equals the
declared class default, the values match the declared field types, and the
separator character occurs in no rendered field value. -/
theorem c2_amended_id_roundtrip (ty : IDType) (inst : IDInst)
    (h1 : inst.sep = ty.sepDefault)
    (h2 : valsTyped (ty.fields.map Prod.snd) inst.vals = true)
    (h3 : ∀ v ∈ inst.vals, ty.sepDefault ∉ pyStrFV v)
    (h4 : ty.fields ≠ []) :
    parse_serialized_id ty (serialize_as_str inst) = some inst := by
  obtain ⟨sep, vals⟩ := inst
  simp only at h1 h2 h3
  subst h1
  have hlen : vals.length = ty.fields.length := by
    simpa using valsTyped_length _ _ h2
  have hvne : vals.map pyStrFV ≠ [] := by
    simp only [ne_eq, List.map_eq_nil_iff]
    intro hv
    rw [hv] at hlen
    exact h4 (List.length_eq_zero.mp hlen.symm)
  have hsplit :
      splitChar ty.sepDefault (serialize_as_str ⟨ty.sepDefault, vals⟩) =
        vals.map pyStrFV := by
    apply splitChar_joinSep _ _ hvne
    intro p hp
    obtain ⟨v, hv, rfl⟩ := List.mem_map.mp hp
    exact h3 v hv
  unfold parse_serialized_id
  rw [hsplit]
  rw [if_pos (by simpa using hlen)]
  rw [coerceFields_pyStrFV _ _ h2]
  rfl

/-- C2 counterexample: a well-formed composite id (three fields set, values
matching their declared types) whose rendered string does not parse back,
so the round trip fails as universally stated.  The instance overrides the
separator, so rendering joins with the vertical bar while parsing splits by
the class default dash; the value 2024-08-21 also embeds the dash. -/
theorem c2_counterexample_roundtrip_fails :
    (instPedido.vals ≠ [] ∧
      valsTyped (tyPedido.fields.map Prod.snd) instPedido.vals = true) ∧
    parse_serialized_id tyPedido (serialize_as_str instPedido) = none := by
  constructor
  · constructor
    · decide
    · decide
  · decide

/-- C2 witness: the amended round trip evaluated on the concrete id of spec
scenario S5. -/
theorem c2_amended_id_roundtrip_witness :
    parse_serialized_id c2_witness_ty (serialize_as_str c2_witness_inst) =
      some c2_witness_inst :=
  c2_amended_id_roundtrip c2_witness_ty c2_witness_inst (by decide) (by decide)
    (by decide) (by decide)

/-- C10: when the separator character occurs in the string form of some
field value (and the instance separator is the class default), the split of
the rendered string yields strictly more parts than the declared number of
fields, so parsing raises the arity error; rendering performs no escaping. -/
theorem c10_separator_in_value_breaks_roundtrip (ty : IDType) (inst : IDInst)
    (h1 : inst.sep = ty.sepDefault)
    (h2 : 2 ≤ ty.fields.length)
    (h3 : inst.vals.length = ty.fields.length)
    (h4 : ∃ v ∈ inst.vals, ty.sepDefault ∈ pyStrFV v) :
    ty.fields.length < (splitChar ty.sepDefault (serialize_as_str inst)).length ∧
    parse_serialized_id ty (serialize_as_str inst) = none := by
  obtain ⟨sep, vals⟩ := inst
  simp only at h1 h3 h4
  subst h1
  rcases hv : vals.map pyStrFV with _ | ⟨p, ps⟩
  · exfalso
    rw [List.map_eq_nil_iff] at hv
    rw [hv] at h3
    simp only [List.length_nil] at h3
    omega
  have hgt :
      ty.fields.length <
        (splitChar ty.sepDefault (serialize_as_str ⟨ty.sepDefault, vals⟩)).length := by
    rw [length_splitChar]
    show ty.fields.length < (joinSep ty.sepDefault (vals.map pyStrFV)).count ty.sepDefault + 1
    rw [hv, count_joinSep]
    obtain ⟨v, hvmem, hvsep⟩ := h4
    have hcnt : 1 ≤ (pyStrFV v).count ty.sepDefault := List.count_pos_iff.mpr hvsep
    have hmem : pyStrFV v ∈ p :: ps := by
      rw [← hv]
      exact List.mem_map_of_mem pyStrFV hvmem
    have hlen : vals.length = ps.length + 1 := by
      have := congrArg List.length hv
      simpa using this
    rcases List.mem_cons.mp hmem with hpv | hpv
    · rw [← hpv]
      omega
    · have hsum : (pyStrFV v).count ty.sepDefault ≤
          (ps.map (fun q => q.count ty.sepDefault)).sum :=
        List.single_le_sum (fun x _ => Nat.zero_le x) _
          (List.mem_map_of_mem (fun q => q.count ty.sepDefault) hpv)
      omega
  refine ⟨hgt, ?_⟩
  unfold parse_serialized_id
  rw [if_neg (by omega)]

/-- C10 witness: the arity failure evaluated on a concrete id whose first
field value embeds the dash separator. -/
theorem c10_separator_in_value_breaks_roundtrip_witness :
    c10_witness_ty.fields.length <
      (splitChar c10_witness_ty.sepDefault (serialize_as_str c10_witness_inst)).length ∧
    parse_serialized_id c10_witness_ty (serialize_as_str c10_witness_inst) = none :=
  c10_separator_in_value_breaks_roundtrip c10_witness_ty c10_witness_inst
    (by decide) (by decide) (by decide) ⟨.vstr "x-y".toList, by decide, by decide⟩

/-! ## Lemmas: membership in the diff output -/

theorem mem_entriesNone (idm : String) (upd : URec) (name : String)
    (e : AuditoriaEntry) :
    e ∈ entriesNone idm upd name ↔
      ((∃ m, upd.get name = .model false m ∧
          ∃ sn ∈ m.fieldsSet,
            e = ⟨idm, name, sn, .leaf (m.getD sn), .leaf .none⟩) ∨
        (scalarOrId (upd.get name) = true ∧
          e = ⟨idm, "root", name, upd.get name, .leaf .none⟩)) := by
  rcases h : upd.get name with l | ⟨b, m⟩
  · simp [entriesNone, h, scalarOrId]
  · cases b
    · simp only [entriesNone, h, scalarOrId]
      simp [eq_comm]
    · simp [entriesNone, h, scalarOrId]

theorem mem_entriesSome (idm : String) (cur upd : URec) (name : String)
    (e : AuditoriaEntry) :
    e ∈ entriesSome idm cur upd name ↔
      ((∃ b m, upd.get name = .model b m ∧
          ∃ sn ∈ m.fieldsSet, subOld cur name sn ≠ m.getD sn ∧
            e = ⟨idm, name, sn, .leaf (m.getD sn), .leaf (subOld cur name sn)⟩) ∨
        (∃ l, upd.get name = .leaf l ∧ cur.get name ≠ .leaf l ∧
          e = ⟨idm, "root", name, .leaf l, cur.get name⟩)) := by
  rcases h : upd.get name with l | ⟨b, m⟩
  · simp only [entriesSome, h]
    by_cases hne : cur.get name = .leaf l
    · simp [hne]
    · simp [hne]
  · simp only [entriesSome, h, List.mem_filterMap, subOld]
    constructor
    · rintro ⟨sn, hsn, hsome⟩
      by_cases hd :
          (if pyTruthy (cur.get name) then valGetD (cur.get name) sn
            else Leaf.none) ≠ m.getD sn
      · rw [if_pos hd] at hsome
        left
        exact ⟨b, m, rfl, sn, hsn, hd, (Option.some_inj.mp hsome).symm⟩
      · rw [if_neg hd] at hsome
        cases hsome
    · rintro (⟨b2, m2, hm, sn, hsn, hd, he⟩ | ⟨l, hl, _, _⟩)
      · obtain ⟨rfl, rfl⟩ : b = b2 ∧ m = m2 := by
          cases hm
          exact ⟨rfl, rfl⟩
        refine ⟨sn, hsn, ?_⟩
        rw [if_pos hd, he]
      · cases hl

theorem mem_rawChanges_none (idm : String) (upd : URec) (e : AuditoriaEntry) :
    e ∈ rawChanges idm .none upd ↔
      ∃ name ∈ upd.fieldsSet, e ∈ entriesNone idm upd name := by
  simp [rawChanges, List.mem_flatMap]

theorem mem_rawChanges_some (idm : String) (cur upd : URec)
    (e : AuditoriaEntry) :
    e ∈ rawChanges idm (some cur) upd ↔
      ∃ name ∈ upd.fieldsSet, e ∈ entriesSome idm cur upd name := by
  simp [rawChanges, List.mem_flatMap]

theorem rawChanges_entry_shape (idm : String) (cur : Option URec) (upd : URec)
    (e : AuditoriaEntry) (h : e ∈ rawChanges idm cur upd) :
    e.old_value ≠ e.new_value ∨ e.old_value = .leaf .none := by
  cases cur with
  | none =>
    rw [mem_rawChanges_none] at h
    obtain ⟨name, _, hmem⟩ := h
    rw [mem_entriesNone] at hmem
    rcases hmem with ⟨m, _, sn, _, rfl⟩ | ⟨_, rfl⟩
    · right; rfl
    · right; rfl
  | some c =>
    rw [mem_rawChanges_some] at h
    obtain ⟨name, _, hmem⟩ := h
    rw [mem_entriesSome] at hmem
    rcases hmem with ⟨b, m, _, sn, _, hd, rfl⟩ | ⟨l, _, hd, rfl⟩
    · left
      simp only [ne_eq, Val.leaf.injEq]
      intro hcontra
      exact hd hcontra
    · left
      exact hd

theorem noChangesEntry_not_mem_rawChanges (idm idm2 : String)
    (cur : Option URec) (upd : URec) :
    noChangesEntry idm ∉ rawChanges idm2 cur upd := by
  intro h
  rcases rawChanges_entry_shape idm2 cur upd _ h with h1 | h1
  · exact h1 rfl
  · exact absurd h1 (by simp [noChangesEntry])

theorem detect_changes_sentinel_iff (cur : Option URec) (upd : URec)
    (idm : String) :
    detect_changes cur upd idm = [noChangesEntry idm] ↔
      rawChanges idm cur upd = [] := by
  constructor
  · intro h
    by_contra hne
    unfold detect_changes at h
    rw [if_neg (by simpa [List.isEmpty_iff] using hne)] at h
    have : noChangesEntry idm ∈ rawChanges idm cur upd := by
      rw [h]
      exact List.mem_singleton.mpr rfl
    exact noChangesEntry_not_mem_rawChanges idm idm cur upd this
  · intro h
    unfold detect_changes
    rw [h]
    rfl

theorem detect_changes_eq_raw (cur : Option URec) (upd : URec) (idm : String)
    (h : rawChanges idm cur upd ≠ []) :
    detect_changes cur upd idm = rawChanges idm cur upd := by
  unfold detect_changes
  rw [if_neg (by simpa [List.isEmpty_iff] using h)]

theorem mem_detect_changes (cur : Option URec) (upd : URec) (idm : String)
    (e : AuditoriaEntry) :
    e ∈ detect_changes cur upd idm ↔
      (rawChanges idm cur upd = [] ∧ e = noChangesEntry idm) ∨
        e ∈ rawChanges idm cur upd := by
  by_cases h : rawChanges idm cur upd = []
  · unfold detect_changes
    rw [h]
    simp
  · rw [detect_changes_eq_raw cur upd idm h]
    simp [h]

/-! ## Lemmas: the three field shapes in the diff -/

theorem diff_none_scalarOrId (upd : URec) (idm name : String)
    (hname : name ∈ upd.fieldsSet) (hroot : name ≠ "root")
    (hscalar : scalarOrId (upd.get name) = true) :
    (⟨idm, "root", name, upd.get name, .leaf .none⟩ : AuditoriaEntry) ∈
        detect_changes .none upd idm ∧
      ∀ e ∈ detect_changes .none upd idm, e.subesquema ≠ name := by
  have hmem : (⟨idm, "root", name, upd.get name, .leaf .none⟩ : AuditoriaEntry) ∈
      rawChanges idm .none upd := by
    rw [mem_rawChanges_none]
    exact ⟨name, hname, (mem_entriesNone _ _ _ _).mpr (Or.inr ⟨hscalar, rfl⟩)⟩
  have hne : rawChanges idm .none upd ≠ [] := List.ne_nil_of_mem hmem
  rw [detect_changes_eq_raw _ _ _ hne]
  refine ⟨hmem, ?_⟩
  intro e he
  rw [mem_rawChanges_none] at he
  obtain ⟨name2, hn2, he2⟩ := he
  rw [mem_entriesNone] at he2
  rcases he2 with ⟨m, hm, sn, hsn, rfl⟩ | ⟨_, rfl⟩
  · show name2 ≠ name
    intro hcontra
    subst hcontra
    rw [hm] at hscalar
    simp [scalarOrId] at hscalar
  · exact Ne.symm hroot

theorem diff_some_leaf (cur upd : URec) (idm name : String) (l : Leaf)
    (hname : name ∈ upd.fieldsSet) (hroot : name ≠ "root")
    (hrootf : "root" ∉ upd.fieldsSet) (hnc : name ≠ "No Changes")
    (hleaf : upd.get name = .leaf l) :
    ((∃ e ∈ detect_changes (some cur) upd idm,
        e.subesquema = "root" ∧ e.campo = name) ↔
      cur.get name ≠ upd.get name) ∧
    ∀ e ∈ detect_changes (some cur) upd idm, e.subesquema ≠ name := by
  constructor
  · constructor
    · rintro ⟨e, he, hsub, hcampo⟩
      rw [mem_detect_changes] at he
      rcases he with ⟨_, rfl⟩ | he
      · exact absurd hsub (by simp [noChangesEntry])
      · rw [mem_rawChanges_some] at he
        obtain ⟨name2, hn2, he2⟩ := he
        rw [mem_entriesSome] at he2
        rcases he2 with ⟨b, m, hm, sn, hsn, hd, rfl⟩ | ⟨l2, hl2, hd, rfl⟩
        · exact absurd (hsub ▸ hn2) hrootf
        · have : name2 = name := hcampo
          subst this
          rw [hleaf]
          rw [hl2] at hleaf
          cases hleaf
          exact hd
    · intro hd
      have he2 : (⟨idm, "root", name, .leaf l, cur.get name⟩ : AuditoriaEntry) ∈
          entriesSome idm cur upd name := by
        rw [mem_entriesSome]
        right
        exact ⟨l, hleaf, fun hc => hd (hleaf ▸ hc), rfl⟩
      have hmem : (⟨idm, "root", name, .leaf l, cur.get name⟩ : AuditoriaEntry) ∈
          rawChanges idm (some cur) upd :=
        (mem_rawChanges_some _ _ _ _).mpr ⟨name, hname, he2⟩
      refine ⟨⟨idm, "root", name, .leaf l, cur.get name⟩, ?_, rfl, rfl⟩
      rw [mem_detect_changes]
      exact Or.inr hmem
  · intro e he
    rw [mem_detect_changes] at he
    rcases he with ⟨_, rfl⟩ | he
    · show "No Changes" ≠ name
      exact Ne.symm hnc
    · rw [mem_rawChanges_some] at he
      obtain ⟨name2, hn2, he2⟩ := he
      rw [mem_entriesSome] at he2
      rcases he2 with ⟨b, m, hm, sn, hsn, hd, rfl⟩ | ⟨l2, hl2, hd, rfl⟩
      · show name2 ≠ name
        intro hcontra
        subst hcontra
        rw [hleaf] at hm
        cases hm
      · exact Ne.symm hroot

theorem diff_some_model (cur upd : URec) (idm name : String) (b : Bool)
    (m : SubModel)
    (hname : name ∈ upd.fieldsSet) (hroot : name ≠ "root")
    (hrootf : "root" ∉ upd.fieldsSet) (hnc : name ≠ "No Changes")
    (hmodel : upd.get name = .model b m) :
    (¬ ∃ e ∈ detect_changes (some cur) upd idm,
        e.subesquema = "root" ∧ e.campo = name) ∧
    ∀ sn, ((∃ e ∈ detect_changes (some cur) upd idm,
        e.subesquema = name ∧ e.campo = sn) ↔
      (sn ∈ m.fieldsSet ∧ subOld cur name sn ≠ m.getD sn)) := by
  constructor
  · rintro ⟨e, he, hsub, hcampo⟩
    rw [mem_detect_changes] at he
    rcases he with ⟨_, rfl⟩ | he
    · exact absurd hsub (by simp [noChangesEntry])
    · rw [mem_rawChanges_some] at he
      obtain ⟨name2, hn2, he2⟩ := he
      rw [mem_entriesSome] at he2
      rcases he2 with ⟨b2, m2, hm2, sn, hsn, hd, rfl⟩ | ⟨l2, hl2, hd, rfl⟩
      · exact absurd (hsub ▸ hn2) hrootf
      · have : name2 = name := hcampo
        subst this
        rw [hmodel] at hl2
        cases hl2
  · intro sn
    constructor
    · rintro ⟨e, he, hsub, hcampo⟩
      rw [mem_detect_changes] at he
      rcases he with ⟨_, rfl⟩ | he
      · exact absurd hsub (Ne.symm hnc)
      · rw [mem_rawChanges_some] at he
        obtain ⟨name2, hn2, he2⟩ := he
        rw [mem_entriesSome] at he2
        rcases he2 with ⟨b2, m2, hm2, sn2, hsn2, hd, rfl⟩ | ⟨l2, hl2, hd, rfl⟩
        · have : name2 = name := hsub
          subst this
          rw [hmodel] at hm2
          obtain ⟨rfl, rfl⟩ : b = b2 ∧ m = m2 := by
            cases hm2
            exact ⟨rfl, rfl⟩
          have : sn2 = sn := hcampo
          subst this
          exact ⟨hsn2, hd⟩
        · exact absurd hsub (Ne.symm hroot)
    · rintro ⟨hsn, hd⟩
      have he2 : (⟨idm, name, sn, .leaf (m.getD sn),
          .leaf (subOld cur name sn)⟩ : AuditoriaEntry) ∈
          entriesSome idm cur upd name := by
        rw [mem_entriesSome]
        left
        exact ⟨b, m, hmodel, sn, hsn, hd, rfl⟩
      have hmem : (⟨idm, name, sn, .leaf (m.getD sn),
          .leaf (subOld cur name sn)⟩ : AuditoriaEntry) ∈
          rawChanges idm (some cur) upd :=
        (mem_rawChanges_some _ _ _ _).mpr ⟨name, hname, he2⟩
      refine ⟨⟨idm, name, sn, .leaf (m.getD sn),
        .leaf (subOld cur name sn)⟩, ?_, rfl, rfl⟩
      rw [mem_detect_changes]
      exact Or.inr hmem

/-! ## Claim C1: the diff treatment of scalar and composite-id fields -/

/-- C1 counterexample: the claim fails on a record pair whose composite-id
field differs.  In the branch of detect_changes where the current record
exists, the isinstance check does not exclude IDModel, so the id field is
expanded into a per-subfield entry under its own field name (subesquema id,
campo cliente_id) and no root entry is emitted although the old and new
values differ. -/
theorem c1_counterexample_id_field_expanded :
    ¬ (∀ name ∈ c1_upd.fieldsSet, scalarOrId (c1_upd.get name) = true →
        (((∃ e ∈ detect_changes (some c1_cur) c1_upd "B",
            e.subesquema = "root" ∧ e.campo = name) ↔
          c1_cur.get name ≠ c1_upd.get name) ∧
        ∀ e ∈ detect_changes (some c1_cur) c1_upd "B",
          e.subesquema ≠ name)) := by
  decide

/-- C1 amended: for an assigned field of the updated record (whose name is
not one of the two reserved tags), when the current record is null every
scalar or Composite-ID valued field is emitted unconditionally as a root
entry with old null and is never expanded; when the current record exists, a
scalar (non-model) field gets a root entry iff the values differ and is
never expanded, while a pydantic-model valued field - a Composite-ID as much
as a subschema, since this branch does not exclude IDModel - is expanded
under its own field name with one entry per assigned subfield iff that
subfield differs, and gets no root entry. -/
theorem c1_amended_diff_root_semantics (upd : URec) (idm name : String)
    (hname : name ∈ upd.fieldsSet) (hroot : name ≠ "root")
    (hrootf : "root" ∉ upd.fieldsSet) (hnc : name ≠ "No Changes") :
    (scalarOrId (upd.get name) = true →
      ((⟨idm, "root", name, upd.get name, .leaf .none⟩ : AuditoriaEntry) ∈
          detect_changes .none upd idm ∧
        ∀ e ∈ detect_changes .none upd idm, e.subesquema ≠ name)) ∧
    ∀ cur : URec,
      (∀ l, upd.get name = .leaf l →
        (((∃ e ∈ detect_changes (some cur) upd idm,
            e.subesquema = "root" ∧ e.campo = name) ↔
          cur.get name ≠ upd.get name) ∧
        ∀ e ∈ detect_changes (some cur) upd idm, e.subesquema ≠ name)) ∧
      (∀ b m, upd.get name = .model b m →
        ((¬ ∃ e ∈ detect_changes (some cur) upd idm,
            e.subesquema = "root" ∧ e.campo = name) ∧
        ∀ sn, ((∃ e ∈ detect_changes (some cur) upd idm,
            e.subesquema = name ∧ e.campo = sn) ↔
          (sn ∈ m.fieldsSet ∧ subOld cur name sn ≠ m.getD sn)))) :=
  ⟨fun hs => diff_none_scalarOrId upd idm name hname hroot hs,
    fun cur =>
      ⟨fun l hl => diff_some_leaf cur upd idm name l hname hroot hrootf hnc hl,
        fun b m hm =>
          diff_some_model cur upd idm name b m hname hroot hrootf hnc hm⟩⟩

/-- C1 witness: the amended semantics evaluated on the concrete record pair
of the counterexample: the differing composite-id field produces exactly the
per-subfield entry under its own name. -/
theorem c1_amended_diff_root_semantics_witness :
    ("id" ∈ c1_upd.fieldsSet ∧ "root" ∉ c1_upd.fieldsSet ∧
      c1_upd.get "id" = .model true c1_id_a) ∧
    (∃ e ∈ detect_changes (some c1_cur) c1_upd "B",
      e.subesquema = "id" ∧ e.campo = "cliente_id") :=
  ⟨⟨by decide, by decide, by decide⟩,
    ((((c1_amended_diff_root_semantics c1_upd "B" "id" (by decide) (by decide)
      (by decide) (by decide)).2 c1_cur).2 true c1_id_a (by decide)).2
        "cliente_id").mpr ⟨by decide, by decide⟩⟩

/-! ## Claim C3: the no-change path of the queue handler -/

/-- C3: when detect_changes returns the singleton No Changes sentinel, the
queue handler appends exactly that one entry to the audit container, does
not write the unified container and sends no topic message; moreover the
sentinel singleton outcome is equivalent to an empty diff, so the
hypothesis could equally be stated as diff emptiness. -/
theorem c3_no_changes_noop (rt : List String) (cur : Option URec)
    (processed : URec) (idm : String)
    (h : detect_changes cur processed idm = [noChangesEntry idm]) :
    rawChanges idm cur processed = [] ∧
    process_function rt cur processed idm =
      ⟨[noChangesEntry idm], [], []⟩ := by
  refine ⟨(detect_changes_sentinel_iff cur processed idm).mp h, ?_⟩
  unfold process_function
  rw [h]
  simp [isNoChangesSingleton, noChangesEntry]

/-- C3 witness: replaying a record against itself produces the sentinel and
the noop effect record. -/
theorem c3_no_changes_noop_witness :
    detect_changes (some c3_rec) c3_rec "CLI001-PROD001" =
      [noChangesEntry "CLI001-PROD001"] ∧
    process_function ["maestra"] (some c3_rec) c3_rec "CLI001-PROD001" =
      ⟨[noChangesEntry "CLI001-PROD001"], [], []⟩ :=
  ⟨by decide,
    (c3_no_changes_noop ["maestra"] (some c3_rec) c3_rec "CLI001-PROD001"
      (by decide)).2⟩

/-! ## Claim C4: topic selection from changes -/

theorem mem_topicStep (rt : List String) (ir : Bool) (acc : List String)
    (c : AuditoriaEntry) (t : String) :
    t ∈ topicStep rt ir acc c ↔
      t ∈ acc ∨ (t = c.subesquema ∧ c.subesquema ∈ rt ∧
        (ir = true ∨ c.subesquema ≠ "root")) := by
  unfold topicStep
  by_cases h1 : c.subesquema ∈ rt
  · rw [if_pos h1]
    by_cases h2 : ir
    · subst h2
      rw [if_pos rfl]
      by_cases h3 : c.subesquema ∈ acc
      · rw [if_pos h3]
        constructor
        · exact fun h => Or.inl h
        · rintro (h | ⟨rfl, _, _⟩)
          · exact h
          · exact h3
      · rw [if_neg h3]
        simp [h1, eq_comm]
    · simp only [Bool.not_eq_true] at h2
      subst h2
      rw [if_neg (by simp)]
      by_cases h4 : c.subesquema ≠ "root"
      · rw [if_pos h4]
        by_cases h3 : c.subesquema ∈ acc
        · rw [if_pos h3]
          constructor
          · exact fun h => Or.inl h
          · rintro (h | ⟨rfl, _, _⟩)
            · exact h
            · exact h3
        · rw [if_neg h3]
          simp [h1, h4, eq_comm]
      · rw [if_neg h4]
        simp only [ne_eq, Decidable.not_not] at h4
        simp [h4]
  · rw [if_neg h1]
    simp [h1]

theorem mem_foldl_topicStep (rt : List String) (ir : Bool) :
    ∀ (cs : List AuditoriaEntry) (acc : List String) (t : String),
      t ∈ cs.foldl (topicStep rt ir) acc ↔
        t ∈ acc ∨ (t ∈ rt ∧ (∃ c ∈ cs, c.subesquema = t) ∧
          (ir = true ∨ t ≠ "root")) := by
  intro cs
  induction cs with
  | nil =>
    intro acc t
    simp
  | cons c cs ih =>
    intro acc t
    rw [List.foldl_cons, ih]
    constructor
    · rintro (h | ⟨hrt, ⟨c2, hc2, he⟩, hg⟩)
      · rcases (mem_topicStep rt ir acc c t).mp h with hacc | ⟨heq, hrt, hg⟩
        · exact Or.inl hacc
        · refine Or.inr ⟨heq ▸ hrt, ⟨c, by simp, heq.symm⟩, ?_⟩
          rw [heq]
          exact hg
      · exact Or.inr ⟨hrt, ⟨c2, by simp [hc2], he⟩, hg⟩
    · rintro (hacc | ⟨hrt, ⟨c2, hc2, he⟩, hg⟩)
      · exact Or.inl ((mem_topicStep rt ir acc c t).mpr (Or.inl hacc))
      · rcases List.mem_cons.mp hc2 with heq | hc2
        · apply Or.inl
          apply (mem_topicStep rt ir acc c t).mpr
          apply Or.inr
          have he2 : c.subesquema = t := by rw [heq] at he; exact he
          refine ⟨he2.symm, ?_, ?_⟩
          · rw [he2]; exact hrt
          · rw [he2]; exact hg
        · exact Or.inr ⟨hrt, ⟨c2, hc2, he⟩, hg⟩

theorem nodup_topicStep (rt : List String) (ir : Bool) (acc : List String)
    (c : AuditoriaEntry) (h : acc.Nodup) : (topicStep rt ir acc c).Nodup := by
  unfold topicStep
  split
  · split
    · split
      · exact h
      · next hmem => simp [List.nodup_append, h, hmem]
    · split
      · split
        · exact h
        · next hmem => simp [List.nodup_append, h, hmem]
      · exact h
  · exact h

theorem nodup_foldl_topicStep (rt : List String) (ir : Bool) :
    ∀ (cs : List AuditoriaEntry) (acc : List String), acc.Nodup →
      (cs.foldl (topicStep rt ir) acc).Nodup := by
  intro cs
  induction cs with
  | nil => exact fun acc h => h
  | cons c cs ih =>
    intro acc h
    rw [List.foldl_cons]
    exact ih _ (nodup_topicStep rt ir acc c h)

/-- C4: get_topics_by_changes returns a duplicate-free list containing a
topic iff it is one of the rule topics, some change mentions it as its
subesquema, and it is not the root tag unless include_root is true; in
particular every returned topic belongs to the rule topics, so every topic
the handler fans out to is one of them. -/
theorem c4_topics_by_changes_spec (rt : List String)
    (cs : List AuditoriaEntry) (ir : Bool) :
    (∀ t, t ∈ get_topics_by_changes rt cs ir ↔
      (t ∈ rt ∧ (∃ c ∈ cs, c.subesquema = t) ∧ (ir = true ∨ t ≠ "root"))) ∧
    (get_topics_by_changes rt cs ir).Nodup ∧
    (∀ t ∈ get_topics_by_changes rt cs ir, t ∈ rt) := by
  refine ⟨?_, ?_, ?_⟩
  · intro t
    unfold get_topics_by_changes
    rw [mem_foldl_topicStep rt ir cs [] t]
    simp
  · exact nodup_foldl_topicStep rt ir cs [] List.nodup_nil
  · intro t ht
    unfold get_topics_by_changes at ht
    rw [mem_foldl_topicStep rt ir cs [] t] at ht
    rcases ht with h | h
    · cases h
    · exact h.1

/-- C4 witness: with include_root false, a change on subschema maestra and a
change on root select exactly the maestra topic. -/
theorem c4_topics_by_changes_spec_witness :
    "maestra" ∈ get_topics_by_changes ["maestra", "root"]
      [⟨"id1", "maestra", "info", .leaf (.str "b"), .leaf (.str "a")⟩,
        ⟨"id1", "root", "estado", .leaf (.str "b"), .leaf (.str "a")⟩]
      false :=
  ((c4_topics_by_changes_spec ["maestra", "root"]
      [⟨"id1", "maestra", "info", .leaf (.str "b"), .leaf (.str "a")⟩,
        ⟨"id1", "root", "estado", .leaf (.str "b"), .leaf (.str "a")⟩]
      false).1 "maestra").mpr
    ⟨by decide,
      ⟨⟨"id1", "maestra", "info", .leaf (.str "b"), .leaf (.str "a")⟩,
        by decide, by decide⟩,
      by decide⟩

/-! ## Claim C5: rule selection order -/

/-- C5: select_rule returns the validated event paired with the first
registered rule whose model validates the input, even when a later rule
would also validate it, and raises NoHayReglas exactly when no registered
rule validates the input. -/
theorem c5_select_rule_first_match (α β : Type) :
    (∀ (pre post : List (RuleR α β)) (r : RuleR α β) (v : β) (data : α),
      (∀ p ∈ pre, p.validate data = .none) → r.validate data = some v →
        select_rule (pre ++ r :: post) data = some (v, r)) ∧
    (∀ (rules : List (RuleR α β)) (data : α),
      select_rule rules data = .none ↔
        ∀ p ∈ rules, p.validate data = .none) := by
  constructor
  · intro pre
    induction pre with
    | nil =>
      intro post r v data _ hr
      show select_rule (r :: post) data = some (v, r)
      unfold select_rule
      rw [hr]
    | cons p pre ih =>
      intro post r v data hpre hr
      show select_rule (p :: (pre ++ r :: post)) data = some (v, r)
      unfold select_rule
      rw [hpre p (by simp)]
      exact ih post r v data (fun q hq => hpre q (by simp [hq])) hr
  · intro rules data
    induction rules with
    | nil => simp [select_rule]
    | cons r rs ih =>
      unfold select_rule
      rcases h : r.validate data with _ | v
      · rw [List.forall_mem_cons]
        simp [h, ih]
      · simp [h, List.forall_mem_cons]

/-- C5 witness: both concrete rules validate the input 4, and the selector
returns the first; on the empty registry the selector fails. -/
theorem c5_select_rule_first_match_witness :
    select_rule [c5_rule_a, c5_rule_b] 4 = some (5, c5_rule_a) ∧
    (select_rule ([] : List (RuleR Nat Nat)) 4 = .none ↔
      ∀ p ∈ ([] : List (RuleR Nat Nat)), p.validate 4 = .none) :=
  ⟨(c5_select_rule_first_match Nat Nat).1 [] [c5_rule_b] c5_rule_a 5 4
      (by intro p hp; cases hp) rfl,
    (c5_select_rule_first_match Nat Nat).2 [] 4⟩

/-! ## Claims C6 and C7: the integration rule run -/

/-- C6: after a successful run exactly one integration audit entry is
written, carrying the record id, the rule name, the body sent as contenido,
the success flag and the response, and the result is returned; and
register_log raises when the record id is missing. -/
theorem c6_run_audits_once (ruleName rid : String)
    (attempts : Nat → Except PyErr IntegrationResult)
    (b : JDict) (res : IntegrationResult)
    (h : (retry_with_exponential_backoff attempts 3 1).result =
      some (.ok res)) :
    run ruleName (.ok rid) attempts (some b) =
      ⟨.ok res,
        [⟨rid, ruleName, res.bodysent, res.success, res.response⟩]⟩ ∧
    ∀ (r2 : IntegrationResult),
      register_log ruleName .none r2 =
        .error "No es posible usar registro del log." := by
  constructor
  · unfold run
    rw [h]
    rfl
  · intro r2
    rfl

/-- C6 witness: a run whose integrate succeeds on the first attempt writes
the single expected audit entry. -/
theorem c6_run_audits_once_witness :
    run "regla1" (.ok "CLI001") (fun _ => .ok c6_res)
        (some [("k", .str "v")]) =
      ⟨.ok c6_res,
        [⟨"CLI001", "regla1", c6_res.bodysent, c6_res.success,
          c6_res.response⟩]⟩ :=
  (c6_run_audits_once "regla1" "CLI001" (fun _ => .ok c6_res)
    [("k", .str "v")] c6_res rfl).1

/-- C7: when integrate raises a pydantic ValidationError (surviving the
retries), run does not re-raise: it synthesizes the failed
IntegrationResult with the error payloads, writes the corresponding audit
entry, and returns that result. -/
theorem c7_validation_error_captured (ruleName rid : String)
    (attempts : Nat → Except PyErr IntegrationResult)
    (bs : Option JDict) (info : String)
    (h : (retry_with_exponential_backoff attempts 3 1).result =
      some (.error (.validation info))) :
    run ruleName (.ok rid) attempts bs =
      ⟨.ok ⟨false, [("error_validacion", .str info)],
          [("error_validacion", .bool true)]⟩,
        [⟨rid, ruleName, [("error_validacion", .bool true)], false,
          [("error_validacion", .str info)]⟩]⟩ := by
  unfold run
  rw [h]
  rfl

/-- C7 witness: an integrate that always raises a ValidationError yields the
synthesized failed result and its audit entry. -/
theorem c7_validation_error_captured_witness :
    run "regla1" (.ok "CLI001")
        (fun _ => .error (.validation "bad")) (some []) =
      ⟨.ok ⟨false, [("error_validacion", .str "bad")],
          [("error_validacion", .bool true)]⟩,
        [⟨"CLI001", "regla1", [("error_validacion", .bool true)], false,
          [("error_validacion", .str "bad")]⟩]⟩ :=
  c7_validation_error_captured "regla1" "CLI001"
    (fun _ => .error (.validation "bad")) (some []) "bad" rfl

/-! ## Claim C8: the retry helper -/

/-- C8: with max_retries 3 and base_delay 1 the helper calls the wrapped
function at most three times, returns the first successful result, sleeps
one second after a first failing attempt and two seconds after a second
failing attempt (base_delay times two to the attempt index), retries on
every exception, and re-raises the last exception when all three attempts
fail. -/
theorem c8_retry_behaviour (α E : Type) (f : Nat → Except E α) :
    (retry_with_exponential_backoff f 3 1).calls ≤ 3 ∧
    (∀ a, f 0 = .ok a →
      retry_with_exponential_backoff f 3 1 = ⟨some (.ok a), 1, []⟩) ∧
    (∀ e0 a, f 0 = .error e0 → f 1 = .ok a →
      retry_with_exponential_backoff f 3 1 = ⟨some (.ok a), 2, [1]⟩) ∧
    (∀ e0 e1 a, f 0 = .error e0 → f 1 = .error e1 → f 2 = .ok a →
      retry_with_exponential_backoff f 3 1 = ⟨some (.ok a), 3, [1, 2]⟩) ∧
    (∀ e0 e1 e2, f 0 = .error e0 → f 1 = .error e1 → f 2 = .error e2 →
      retry_with_exponential_backoff f 3 1 =
        ⟨some (.error e2), 3, [1, 2]⟩) := by
  refine ⟨?_, ?_, ?_, ?_, ?_⟩
  · show (retryGo f 1 0 (1 + 2)).calls ≤ 3
    rcases h0 : f 0 with e0 | a0
    · rcases h1 : f 1 with e1 | a1
      · rcases h2 : f 2 with e2 | a2
        · simp only [retryGo, h0, h1, h2]
          norm_num
        · simp only [retryGo, h0, h1, h2]
          norm_num
      · simp only [retryGo, h0, h1]
        norm_num
    · simp only [retryGo, h0]
      norm_num
  · intro a ha
    show retryGo f 1 0 (1 + 2) = _
    simp only [retryGo, ha]
  · intro e0 a h0 h1
    show retryGo f 1 0 (1 + 2) = _
    simp only [retryGo, h0, h1]
    norm_num
  · intro e0 e1 a h0 h1 h2
    show retryGo f 1 0 (1 + 2) = _
    simp only [retryGo, h0, h1, h2]
    norm_num
  · intro e0 e1 e2 h0 h1 h2
    show retryGo f 1 0 (1 + 2) = _
    simp only [retryGo, h0, h1, h2]
    norm_num

/-- C8 witness: a function failing twice then succeeding is called three
times with sleeps of one and two seconds, as in spec scenario S6. -/
theorem c8_retry_behaviour_witness :
    retry_with_exponential_backoff
        (fun n => if n < 2 then .error (500 : Nat) else .ok "ok") 3 1 =
      ⟨some (.ok "ok"), 3, [1, 2]⟩ :=
  ((c8_retry_behaviour String Nat
      (fun n => if n < 2 then .error (500 : Nat) else .ok "ok")).2.2.2.1)
    500 500 "ok" rfl rfl rfl

/-! ## Claim C9: the timer loop -/

theorem timer_function_sends {α Ev δ ε : Type}
    (p : α → Except ε Ev) (d : Ev → δ) (i : Ev → String) :
    ∀ (evs : List α),
      (timer_function p d i evs).1 =
        (evs.filterMap (fun x => (p x).toOption)).map
          (fun v => (d v, i v)) := by
  intro evs
  induction evs with
  | nil => rfl
  | cons x xs ih =>
    rcases h : p x with e | v <;>
      simp [timer_function, h, ih, Except.toOption]

theorem timer_function_logs {α Ev δ ε : Type}
    (p : α → Except ε Ev) (d : Ev → δ) (i : Ev → String) :
    ∀ (evs : List α),
      (timer_function p d i evs).2 =
        evs.filterMap
          (fun x => match p x with
            | .error e => some (x, e)
            | .ok _ => Option.none) := by
  intro evs
  induction evs with
  | nil => rfl
  | cons x xs ih =>
    rcases h : p x with e | v <;>
      simp [timer_function, h, ih]

/-- C9: in the timer loop every element whose validation succeeds is
published to the queue with session id str(event.id) in order, and every
element whose validation raises is logged and skipped without aborting the
rest of the batch: the sends are exactly the successfully processed
elements in order. -/
theorem c9_timer_skips_invalid (α Ev δ ε : Type)
    (process_event : α → Except ε Ev) (dump : Ev → δ) (idStr : Ev → String)
    (events : List α) :
    ((timer_function process_event dump idStr events).1 =
      (events.filterMap (fun x => (process_event x).toOption)).map
        (fun v => (dump v, idStr v))) ∧
    (∀ x ∈ events, ∀ v, process_event x = .ok v →
      (dump v, idStr v) ∈ (timer_function process_event dump idStr events).1) ∧
    (∀ x ∈ events, ∀ e, process_event x = .error e →
      (x, e) ∈ (timer_function process_event dump idStr events).2) := by
  refine ⟨timer_function_sends process_event dump idStr events, ?_, ?_⟩
  · intro x hx v hv
    rw [timer_function_sends process_event dump idStr events]
    apply List.mem_map_of_mem
    rw [List.mem_filterMap]
    exact ⟨x, hx, by rw [hv]; rfl⟩
  · intro x hx e he
    rw [timer_function_logs process_event dump idStr events]
    rw [List.mem_filterMap]
    exact ⟨x, hx, by rw [he]⟩

/-- C9 witness: a batch of three elements whose middle element fails
validation publishes the two valid siblings and logs the failure. -/
theorem c9_timer_skips_invalid_witness :
    (1, "1") ∈ (timer_function
      (fun n : Nat => if n == 2 then .error "invalid" else .ok n)
      (fun n => n) (fun n => toString n) [1, 2, 3]).1 ∧
    (2, "invalid") ∈ (timer_function
      (fun n : Nat => if n == 2 then .error "invalid" else .ok n)
      (fun n => n) (fun n => toString n) [1, 2, 3]).2 :=
  ⟨(c9_timer_skips_invalid Nat Nat Nat String
      (fun n => if n == 2 then .error "invalid" else .ok n)
      (fun n => n) (fun n => toString n) [1, 2, 3]).2.1
    1 (by decide) 1 rfl,
   (c9_timer_skips_invalid Nat Nat Nat String
      (fun n => if n == 2 then .error "invalid" else .ok n)
      (fun n => n) (fun n => toString n) [1, 2, 3]).2.2
    2 (by decide) "invalid" rfl⟩

end CCF
